import Mathlib

/-!
Shallow embedding of the Network Telemetry Collection & Merge Pipeline
(`Metrics.monitorNetworkTraffic`, `Metrics.mergeNetworkTraces` and its inner
`extendJsonWithErrors`) from `src/common/utils/metricsIntegration.ts`.

Times are modelled as integers (milliseconds) and the derived average
as an exact rational; status codes are naturals.  JavaScript
objects used as string-keyed maps are modelled as association lists in
insertion order (JS iterates non-numeric string keys in insertion order);
the one place where the keys are numeric strings (`statusCodeCounts`) is
modelled with ascending numeric key order, matching JS integer-key
iteration.  Fallible operations are modelled with `Option`/`Except`.
-/

/-- Model of JavaScript `String.prototype.includes`: `charsStartWith s p`
is true when `p` is a prefix of `s`. -/
def charsStartWith : List Char → List Char → Bool
  | _, [] => true
  | [], _ :: _ => false
  | c :: cs, p :: ps => c == p && charsStartWith cs ps

/-- `charsContain s p` is true when `p` occurs contiguously inside `s`. -/
def charsContain : List Char → List Char → Bool
  | [], pat => charsStartWith [] pat
  | s@(_ :: cs), pat => charsStartWith s pat || charsContain cs pat

/-- JavaScript `s.includes(pat)`. -/
def strContains (s pat : String) : Bool :=
  charsContain s.data pat.data

/-- Lookup in a JS-object-as-map modelled as an insertion-ordered
association list (property access `obj[k]`). -/
def lookupA {β : Type} : List (String × β) → String → Option β
  | [], _ => none
  | (k', v) :: rest, k => if k' = k then some v else lookupA rest k

/-- Property assignment `obj[k] = v`: overwrite in place if the key
exists, otherwise append the new key at the end (JS insertion order). -/
def setA {β : Type} : List (String × β) → String → β → List (String × β)
  | [], k, v => [(k, v)]
  | (k', v') :: rest, k, v =>
      if k' = k then (k, v) :: rest else (k', v') :: setA rest k v

/-- In-place modification of an existing property (`obj[k].field = ...`);
a missing key is left alone (the source only does this after creating
the entry). -/
def updA {β : Type} (f : β → β) : List (String × β) → String → List (String × β)
  | [], _ => []
  | (k', v) :: rest, k =>
      if k' = k then (k', f v) :: rest else (k', v) :: updA f rest k

/-! ## Data model (`interfaces` in metricsIntegration.ts) -/

/-- `overallInformation` of a `CollectedData`. -/
structure OverallInformation where
  avgResponseTime : ℚ
  totalRequests : ℕ
  totalTime : ℤ
  contextTime : ℤ
  deriving DecidableEq, Repr

/-- The parsed `requestBody` of a graphql request; the code only ever
reads `requestBody.operationName` (and checks the body for null). -/
structure RequestBody where
  operationName : String
  deriving DecidableEq, Repr

/-- `RequestData` as written into a per-session trace file by the
observer.  `responseBody` is `none` when reading the body failed;
`responseStatusCode` is `none` because the observer reads the
non-existent property `response.responseStatusCode` (always undefined). -/
structure RequestData where
  statusCode : ℕ
  requestUrl : String
  requestHeaders : List (String × String)
  requestBody : Option RequestBody
  responseUrl : String
  responseHeaders : List (String × String)
  responseBody : Option String
  responseTime : ℤ
  responseStatusCode : Option ℕ
  deriving DecidableEq, Repr

/-- `CollectedData`: the in-memory per-session trace. -/
structure CollectedData where
  overallInformation : OverallInformation
  requests : List RequestData
  deriving DecidableEq, Repr

/-- `MollyConfig.global.metrics.networkTraffic`. -/
structure NetworkTrafficConfig where
  URLQuery : List String
  threshold_ms : ℤ
  deriving DecidableEq, Repr

/-- One finished network exchange as observed by the `requestfinished`
handler: the pieces of `data`/`response`/`timing` the handler reads.
`bodyRead = none` models `response.body()` throwing (body unavailable). -/
structure Exchange where
  url : String
  statusCode : ℕ
  requestHeaders : List (String × String)
  requestBody : Option RequestBody
  responseUrl : String
  responseHeaders : List (String × String)
  timingRequestStart : ℤ
  timingResponseEnd : ℤ
  bodyRead : Option String
  deriving DecidableEq, Repr

/-! ## Session Observer (`Metrics.monitorNetworkTraffic`, lines 131-213) -/

/-- `timing.responseEnd - timing.requestStart`. -/
def exchangeResponseTime (e : Exchange) : ℤ :=
  e.timingResponseEnd - e.timingRequestStart

/-- `MollyConfig.global.metrics.networkTraffic.URLQuery.some(query => url.includes(query))`. -/
def matchesURLQuery (cfg : NetworkTrafficConfig) (url : String) : Bool :=
  cfg.URLQuery.any (fun query => strContains url query)

/-- URL-filter test for a whole exchange. -/
def exchangeMatches (cfg : NetworkTrafficConfig) (e : Exchange) : Bool :=
  matchesURLQuery cfg e.url

/-- `statusCode != 200 || responseTime > threshold_ms`. -/
def slowOrFailing (cfg : NetworkTrafficConfig) (e : Exchange) : Bool :=
  e.statusCode != 200 || decide (exchangeResponseTime e > cfg.threshold_ms)

/-- Condition under which the handler pushes a `RequestData` record. -/
def recordCond (cfg : NetworkTrafficConfig) (e : Exchange) : Bool :=
  exchangeMatches cfg e && slowOrFailing cfg e

/-- The `dataObject` pushed by the handler (lines 174-185).  Note that
the record is built and pushed even when the body read failed: the
`try`/`catch` only wraps the body read, and afterwards the push is
unconditional, with `responseBody` left undefined. -/
def mkRequestRecord (e : Exchange) : RequestData :=
  { statusCode := e.statusCode
    requestUrl := e.url
    requestHeaders := e.requestHeaders
    requestBody := e.requestBody
    responseUrl := e.responseUrl
    responseHeaders := e.responseHeaders
    responseBody := e.bodyRead
    responseTime := exchangeResponseTime e
    responseStatusCode := none }

/-- The `requestfinished` handler body (lines 143-187). -/
def observeExchange (cfg : NetworkTrafficConfig) (s : CollectedData)
    (e : Exchange) : CollectedData :=
  let s1 :=
    if exchangeMatches cfg e then
      { s with overallInformation :=
          { s.overallInformation with
              totalRequests := s.overallInformation.totalRequests + 1
              totalTime := s.overallInformation.totalTime + exchangeResponseTime e } }
    else s
  if recordCond cfg e then
    { s1 with requests := s1.requests ++ [mkRequestRecord e] }
  else s1

/-- The `collectedData` initialiser (lines 132-140). -/
def initialCollectedData : CollectedData :=
  { overallInformation :=
      { avgResponseTime := 0, totalRequests := 0, totalTime := 0, contextTime := 0 }
    requests := [] }

/-- A whole session: the handler folded over the finished exchanges in
arrival order. -/
def observeSession (cfg : NetworkTrafficConfig) (es : List Exchange) : CollectedData :=
  es.foldl (observeExchange cfg) initialCollectedData

/-- The `close` handler (lines 190-209): the trace is serialised and
written only when `collectedData.requests[0] !== undefined`; in that
case `avgResponseTime` is set to `totalTime / totalRequests` first.
`none` models the "No data to save" branch (nothing written). -/
def sessionEnd (s : CollectedData) : Option CollectedData :=
  if s.requests = [] then none
  else
    some { s with overallInformation :=
        { s.overallInformation with
            avgResponseTime :=
              (s.overallInformation.totalTime : ℚ) /
                (s.overallInformation.totalRequests : ℚ) } }

/-! ### Helper lemmas about the observer fold -/

/-- Effect of one handler invocation, split by the two conditions. -/
lemma observeExchange_requests (cfg : NetworkTrafficConfig) (s : CollectedData)
    (e : Exchange) :
    (observeExchange cfg s e).requests =
      s.requests ++ (if recordCond cfg e then [mkRequestRecord e] else []) := by
  unfold observeExchange
  by_cases hm : exchangeMatches cfg e <;> by_cases hr : recordCond cfg e <;>
    simp [hm, hr]

lemma observeExchange_totalRequests (cfg : NetworkTrafficConfig)
    (s : CollectedData) (e : Exchange) :
    (observeExchange cfg s e).overallInformation.totalRequests =
      s.overallInformation.totalRequests +
        (if exchangeMatches cfg e then 1 else 0) := by
  unfold observeExchange
  by_cases hm : exchangeMatches cfg e <;> by_cases hr : recordCond cfg e <;>
    simp [hm, hr]

lemma observeExchange_totalTime (cfg : NetworkTrafficConfig)
    (s : CollectedData) (e : Exchange) :
    (observeExchange cfg s e).overallInformation.totalTime =
      s.overallInformation.totalTime +
        (if exchangeMatches cfg e then exchangeResponseTime e else 0) := by
  unfold observeExchange
  by_cases hm : exchangeMatches cfg e <;> by_cases hr : recordCond cfg e <;>
    simp [hm, hr]

/-- Folding the handler over a list of exchanges, with a general initial
state: requests, `totalRequests` and `totalTime` accumulate exactly over
the filter-matched exchanges. -/
lemma observe_foldl_spec (cfg : NetworkTrafficConfig) (es : List Exchange) :
    ∀ s : CollectedData,
      (es.foldl (observeExchange cfg) s).requests =
          s.requests ++ (es.filter (recordCond cfg)).map mkRequestRecord ∧
      (es.foldl (observeExchange cfg) s).overallInformation.totalRequests =
          s.overallInformation.totalRequests + (es.filter (exchangeMatches cfg)).length ∧
      (es.foldl (observeExchange cfg) s).overallInformation.totalTime =
          s.overallInformation.totalTime +
            ((es.filter (exchangeMatches cfg)).map exchangeResponseTime).sum := by
  induction es with
  | nil => intro s; simp
  | cons e es ih =>
      intro s
      obtain ⟨ih1, ih2, ih3⟩ := ih (observeExchange cfg s e)
      refine ⟨?_, ?_, ?_⟩
      · rw [List.foldl_cons, ih1, observeExchange_requests]
        by_cases hr : recordCond cfg e <;> simp [hr]
      · rw [List.foldl_cons, ih2, observeExchange_totalRequests]
        by_cases hm : exchangeMatches cfg e <;> simp [hm] <;> omega
      · rw [List.foldl_cons, ih3, observeExchange_totalTime]
        by_cases hm : exchangeMatches cfg e <;> simp [hm] <;> ring

/-- Claim C1 helper, specialised to the initial state. -/
lemma observeSession_spec (cfg : NetworkTrafficConfig) (es : List Exchange) :
    (observeSession cfg es).requests =
        (es.filter (recordCond cfg)).map mkRequestRecord ∧
    (observeSession cfg es).overallInformation.totalRequests =
        (es.filter (exchangeMatches cfg)).length ∧
    (observeSession cfg es).overallInformation.totalTime =
        ((es.filter (exchangeMatches cfg)).map exchangeResponseTime).sum := by
  have h := observe_foldl_spec cfg es initialCollectedData
  simpa [observeSession, initialCollectedData] using h

/-- Claim C1: a `RequestRecord` is appended for exactly the exchanges
whose URL contains a configured `URLQuery` substring and which are
failing (status ≠ 200) or slow (responseTime > threshold); exchanges
failing the URL filter contribute to neither `totalRequests` nor
`totalTime` (the counters are functions of the matched exchanges only). -/
theorem monitor_record_iff_filter_and_slow_or_failing
    (cfg : NetworkTrafficConfig) (es : List Exchange) :
    (observeSession cfg es).requests =
        (es.filter (recordCond cfg)).map mkRequestRecord ∧
    (observeSession cfg es).overallInformation.totalRequests =
        (es.filter (exchangeMatches cfg)).length ∧
    (observeSession cfg es).overallInformation.totalTime =
        ((es.filter (exchangeMatches cfg)).map exchangeResponseTime).sum :=
  observeSession_spec cfg es

/-- Claim C2: at session end a trace file is written iff at least one
record was captured, and every written trace's `avgResponseTime` is
`totalTime / totalRequests` over all URL-filter-matched exchanges (the
record list may be shorter than the matched set). -/
theorem monitor_writes_iff_and_avg (cfg : NetworkTrafficConfig)
    (es : List Exchange) :
    ((sessionEnd (observeSession cfg es)).isSome ↔
        (observeSession cfg es).requests ≠ []) ∧
    (∀ t, sessionEnd (observeSession cfg es) = some t →
      t.overallInformation.avgResponseTime =
          ((((es.filter (exchangeMatches cfg)).map exchangeResponseTime).sum : ℤ) : ℚ) /
            (((es.filter (exchangeMatches cfg)).length : ℕ) : ℚ) ∧
      t.requests = (es.filter (recordCond cfg)).map mkRequestRecord) := by
  obtain ⟨h1, h2, h3⟩ := observeSession_spec cfg es
  constructor
  · unfold sessionEnd
    by_cases h : (observeSession cfg es).requests = [] <;> simp [h]
  · intro t ht
    unfold sessionEnd at ht
    rw [if_neg ?hne] at ht
    case hne =>
      intro h
      rw [h] at ht; exact Option.noConfusion ht
    obtain rfl := Option.some.inj ht
    refine ⟨?_, h1⟩
    show ((observeSession cfg es).overallInformation.totalTime : ℚ) /
        ((observeSession cfg es).overallInformation.totalRequests : ℚ) = _
    rw [h2, h3]

/-- Concrete session for the C2 witness: ten filter-matched exchanges,
eight fast and successful, two failing (recorded). -/
def cfgW : NetworkTrafficConfig := { URLQuery := ["api"], threshold_ms := 100 }

def eGoodW : Exchange :=
  { url := "https://host/api/list", statusCode := 200, requestHeaders := [],
    requestBody := none, responseUrl := "https://host/api/list",
    responseHeaders := [], timingRequestStart := 0, timingResponseEnd := 10,
    bodyRead := some "ok" }

def eBadW : Exchange :=
  { url := "https://host/api/save", statusCode := 500, requestHeaders := [],
    requestBody := none, responseUrl := "https://host/api/save",
    responseHeaders := [], timingRequestStart := 0, timingResponseEnd := 60,
    bodyRead := some "boom" }

def esW : List Exchange :=
  [eGoodW, eGoodW, eGoodW, eGoodW, eGoodW, eGoodW, eGoodW, eGoodW, eBadW, eBadW]

/-- The trace the observer writes for `esW`: the average is over all ten
matched exchanges while only the two failing ones are recorded. -/
def traceW : CollectedData :=
  { overallInformation :=
      { avgResponseTime := ((200 : ℤ) : ℚ) / ((10 : ℕ) : ℚ),
        totalRequests := 10, totalTime := 200, contextTime := 0 }
    requests := [mkRequestRecord eBadW, mkRequestRecord eBadW] }

/-- Witness for C2 at a concrete session (10 matched, 2 recorded). -/
theorem monitor_writes_iff_and_avg_witness :
    (traceW.overallInformation.avgResponseTime =
        ((((esW.filter (exchangeMatches cfgW)).map exchangeResponseTime).sum : ℤ) : ℚ) /
          (((esW.filter (exchangeMatches cfgW)).length : ℕ) : ℚ) ∧
      traceW.requests = (esW.filter (recordCond cfgW)).map mkRequestRecord) ∧
    traceW.requests.length = 2 ∧
    (esW.filter (exchangeMatches cfgW)).length = 10 :=
  ⟨(monitor_writes_iff_and_avg cfgW esW).2 traceW (by rfl),
    by decide, by decide⟩

/-! ## Claim C5: body-read failure during observation -/

/-- Config from `molly.config` (`URLQuery: ['graphql'], threshold_ms: 2000`). -/
def cfg5 : NetworkTrafficConfig := { URLQuery := ["graphql"], threshold_ms := 2000 }

/-- A filter-matched failing exchange whose response body cannot be read. -/
def e5 : Exchange :=
  { url := "https://host/graphql", statusCode := 500, requestHeaders := [],
    requestBody := some { operationName := "GetUser" },
    responseUrl := "https://host/graphql", responseHeaders := [],
    timingRequestStart := 0, timingResponseEnd := 50, bodyRead := none }

/-- Counterexample to C5 as stated: for a filter-matched, failing
exchange whose body read fails, the handler still appends a
`RequestRecord` (with `responseBody` absent) — it does not skip the
exchange.  The `try`/`catch` in lines 168-172 only wraps the body read;
the push at line 185 is unconditional. -/
theorem observer_body_read_failure_still_records :
    exchangeMatches cfg5 e5 = true ∧ e5.statusCode ≠ 200 ∧ e5.bodyRead = none ∧
    (observeExchange cfg5 initialCollectedData e5).requests =
      [mkRequestRecord e5] ∧
    (mkRequestRecord e5).responseBody = none := by decide

/-- Claim C5 as amended: on a body-read failure for a filter-matched
slow-or-failing exchange, the observer logs a warning and appends the
`RequestRecord` with an absent `responseBody`; no exception propagates. -/
theorem observer_appends_bodyless_record_on_read_failure
    (cfg : NetworkTrafficConfig) (s : CollectedData) (e : Exchange)
    (hm : exchangeMatches cfg e = true) (hsf : slowOrFailing cfg e = true)
    (hb : e.bodyRead = none) :
    (observeExchange cfg s e).requests = s.requests ++ [mkRequestRecord e] ∧
    (mkRequestRecord e).responseBody = none := by
  have hr : recordCond cfg e = true := by
    simp [recordCond, hm, hsf]
  rw [observeExchange_requests]
  simp [hr, mkRequestRecord, hb]

/-- Witness for the amended C5 at a concrete exchange. -/
theorem observer_appends_bodyless_record_witness :
    (observeExchange cfg5 initialCollectedData e5).requests =
      initialCollectedData.requests ++ [mkRequestRecord e5] ∧
    (mkRequestRecord e5).responseBody = none :=
  observer_appends_bodyless_record_on_read_failure cfg5 initialCollectedData e5
    (by decide) (by decide) (by decide)

/-! ## Merge Engine (`Metrics.mergeNetworkTraces`, lines 215-433) -/

/-- A request as stored in a merged `gql`/`rest` bucket (lines 280-302):
the copy's `responseStatusCode` is normalized to the record's
`statusCode`, and `responseBody` is known non-null (null-body records
are dropped at line 261). -/
structure MergedRequest where
  statusCode : ℕ
  requestUrl : String
  requestHeaders : List (String × String)
  requestBody : Option RequestBody
  responseUrl : String
  responseHeaders : List (String × String)
  responseBody : String
  responseTime : ℤ
  responseStatusCode : ℕ
  deriving DecidableEq, Repr

/-- One per-operation bucket of `gql.operations`. -/
structure OperationBucket where
  requests : List MergedRequest
  deriving DecidableEq, Repr

/-- Per-role entry of `mergedMetrics.roles`. -/
structure RoleMetrics where
  overallInformation : OverallInformation
  gqlOperations : List (String × OperationBucket)
  restRequests : List MergedRequest
  deriving DecidableEq, Repr

/-- The JSON value stored under the `allStatusCodes` key: the gql path
stores a single number (line 365), the rest path stores a list. -/
inductive StatusCodesField where
  | single : ℕ → StatusCodesField
  | list : List ℕ → StatusCodesField
  deriving DecidableEq, Repr

/-- `errors.gql[operationName]` entry (lines 362-368). -/
structure GqlErrorSummary where
  count : ℕ
  mostCommonStatusCode : Option ℕ
  allStatusCodes : StatusCodesField
  deriving DecidableEq, Repr

/-- `errors.rest[url]` entry (lines 381-408). -/
structure RestErrorSummary where
  count : ℕ
  mostCommonStatusCode : Option ℕ
  allStatusCodes : List ℕ
  deriving DecidableEq, Repr

/-- The top-level `errors` object. -/
structure ErrorsSection where
  gql : List (String × GqlErrorSummary)
  rest : List (String × RestErrorSummary)
  deriving DecidableEq, Repr

/-- `mergedMetrics`; `errors` is absent until `extendJsonWithErrors`. -/
structure MergedMetrics where
  roles : List (String × RoleMetrics)
  errors : Option ErrorsSection
  deriving DecidableEq, Repr

/-- A trace file parsed with `JSON.parse`: the `requests` field may be
missing from the parsed object (checked at line 254). -/
structure ParsedTrace where
  overallInformation : OverallInformation
  requests : Option (List RequestData)
  deriving DecidableEq, Repr

/-- One file of the Trace Store; `contents = none` models a file whose
text `JSON.parse` rejects (logged and skipped, lines 233-238). -/
structure TraceFile where
  name : String
  contents : Option ParsedTrace
  deriving DecidableEq, Repr

/-- The characters before the first underscore. -/
def takeUntilUnderscore : List Char → List Char
  | [] => []
  | c :: cs => if c = '_' then [] else c :: takeUntilUnderscore cs

/-- `file.split('_')[0]` (line 240): the filename's leading token. -/
def roleOfFileName (name : String) : String :=
  String.mk (takeUntilUnderscore name.data)

/-- The copy pushed into a bucket (lines 280-290 / 292-302); `body` is
the non-null `responseBody`. -/
def toMergedRequest (r : RequestData) (body : String) : MergedRequest :=
  { statusCode := r.statusCode
    requestUrl := r.requestUrl
    requestHeaders := r.requestHeaders
    requestBody := r.requestBody
    responseUrl := r.responseUrl
    responseHeaders := r.responseHeaders
    responseBody := body
    responseTime := r.responseTime
    responseStatusCode := r.statusCode }

/-- Lines 274-290: create the per-operation bucket lazily, then push. -/
def pushGqlRequest (ops : List (String × OperationBucket)) (opName : String)
    (req : MergedRequest) : List (String × OperationBucket) :=
  let ops1 := if (lookupA ops opName).isNone then ops ++ [(opName, ⟨[]⟩)] else ops
  updA (fun b => ⟨b.requests ++ [req]⟩) ops1 opName

/-- Body of the per-request loop (lines 259-304). -/
def mergeRequest (st : List (String × RoleMetrics)) (role : String)
    (r : RequestData) : List (String × RoleMetrics) :=
  match r.responseBody with
  | none => st
  | some body =>
      if strContains r.requestUrl "graphql" then
        match r.requestBody with
        | none => st
        | some rb =>
            updA (fun rm =>
              { rm with gqlOperations :=
                  (pushGqlRequest rm.gqlOperations rb.operationName
                    (toMergedRequest r body)) }) st role
      else
        updA (fun rm =>
          { rm with restRequests := rm.restRequests ++ [toMergedRequest r body] })
          st role

/-- The fresh role entry seeded at lines 242-252 from a trace file's
`overallInformation`. -/
def seedRole (m : ParsedTrace) : RoleMetrics :=
  { overallInformation := m.overallInformation
    gqlOperations := []
    restRequests := [] }

/-- Lines 242-304 for one successfully parsed file: seed the role if it
is new (an existing role's `overallInformation` is left untouched —
there is no else-branch at line 242), then route each request. -/
def mergeParsed (st : List (String × RoleMetrics)) (role : String)
    (metrics : ParsedTrace) : List (String × RoleMetrics) :=
  let st1 :=
    if (lookupA st role).isNone then st ++ [(role, seedRole metrics)] else st
  match metrics.requests with
  | none => st1
  | some reqs => reqs.foldl (fun st r => mergeRequest st role r) st1

/-- Body of the per-file loop (lines 228-305). -/
def mergeFile (st : List (String × RoleMetrics)) (file : TraceFile) :
    List (String × RoleMetrics) :=
  match file.contents with
  | none => st
  | some metrics => mergeParsed st (roleOfFileName file.name) metrics

/-- The whole file loop starting from `{ roles: {} }`. -/
def mergeRoles (files : List TraceFile) : List (String × RoleMetrics) :=
  files.foldl mergeFile []

/-! ## Error Classifier (`extendJsonWithErrors`, lines 307-415) -/

/-- Insertion into an ascending list. -/
def insertAsc (n : ℕ) : List ℕ → List ℕ
  | [] => [n]
  | m :: ms => if n ≤ m then n :: m :: ms else m :: insertAsc n ms

/-- Insertion sort, ascending. -/
def sortAsc (l : List ℕ) : List ℕ := l.foldr insertAsc []

/-- `Object.keys(statusCodeCounts)`: the distinct status codes of `l`.
JS iterates integer-like string keys in ascending numeric order
regardless of insertion order, hence the sort. -/
def objectKeysAsc (l : List ℕ) : List ℕ := sortAsc l.dedup

/-- `reduce((a, b) => statusCodeCounts[a] > statusCodeCounts[b] ? a : b)`
with initial accumulator `a` over the remaining items `ks`; `l` is the
multiset the frequencies are counted in.  On equal counts the later
item wins. -/
def reduceByCount (l : List ℕ) (a : ℕ) (ks : List ℕ) : ℕ :=
  ks.foldl (fun a b => if l.count a > l.count b then a else b) a

/-- Lines 354-360 (and 397-403): `mostCommonStatusCode` is the
frequency-map-keys reduction, or null when the map is empty. -/
def mostCommonStatusCode (l : List ℕ) : Option ℕ :=
  match objectKeysAsc l with
  | [] => none
  | k :: ks => some (reduceByCount l k ks)

/-- Lines 365-367: the same comparison reduced over the raw occurrence
array itself (throws on an empty array, hence `none`). -/
def reduceMostFrequent (l : List ℕ) : Option ℕ :=
  match l with
  | [] => none
  | c :: cs => some (reduceByCount l c cs)

/-- A gql request counts as an error when the serialised body contains
"error" or the normalized status code is not 200 (lines 328-330 and
343-345; `JSON.stringify` of a string contains "error" exactly when the
string does). -/
def gqlErrorPred (r : MergedRequest) : Bool :=
  strContains r.responseBody "error" || r.responseStatusCode != 200

/-- `errorStatusCodesArray` (lines 341-347). -/
def errorCodesOf (reqs : List MergedRequest) : List ℕ :=
  (reqs.filter gqlErrorPred).map (fun r => r.responseStatusCode)

/-- The per-request guard of the gql loop (lines 326-336): a falsy
(empty) `responseBody` is skipped by `continue`; otherwise `hasError`
is the same predicate as the array filter. -/
def gqlTrigger (r : MergedRequest) : Bool :=
  r.responseBody != "" && gqlErrorPred r

/-- The summary object assigned at lines 362-368.  `none` corresponds
to the unreachable empty-array reduce throwing inside the `try` (the
entry is then not assigned, the loop continues). -/
def gqlSummaryOpt (reqs : List MergedRequest) : Option GqlErrorSummary :=
  let codes := errorCodesOf reqs
  match reduceMostFrequent codes with
  | none => none
  | some n =>
      some { count := codes.length
             mostCommonStatusCode := mostCommonStatusCode codes
             allStatusCodes := StatusCodesField.single n }

/-- The gql request loop for one operation (lines 325-373): every
erroring request with a truthy body re-assigns the same summary,
computed from all of the operation's requests. -/
def gqlStep (opName : String) (reqs : List MergedRequest)
    (g : List (String × GqlErrorSummary)) (r : MergedRequest) :
    List (String × GqlErrorSummary) :=
  if gqlTrigger r then
    match gqlSummaryOpt reqs with
    | some s => setA g opName s
    | none => g
  else g

def processGqlOperation (g : List (String × GqlErrorSummary)) (opName : String)
    (reqs : List MergedRequest) : List (String × GqlErrorSummary) :=
  reqs.foldl (gqlStep opName reqs) g

/-- `const hasError = request.responseStatusCode != 200` (line 378). -/
def isRestError (r : MergedRequest) : Bool :=
  r.responseStatusCode != 200

/-- Body of the rest loop (lines 377-411).  In the update branch the
new `allStatusCodes` is `[...new Set(updatedJson.errors["rest-" + url])]`;
the `rest-`-prefixed key is never assigned anywhere, so the spread of
the empty set always yields `[]`, and `mostCommonStatusCode` is
recomputed from the frequency map of the OLD `allStatusCodes`. -/
def restStep (rest : List (String × RestErrorSummary)) (r : MergedRequest) :
    List (String × RestErrorSummary) :=
  if isRestError r then
    match lookupA rest r.requestUrl with
    | none =>
        rest ++ [(r.requestUrl,
          { count := 1
            mostCommonStatusCode := some r.responseStatusCode
            allStatusCodes := [r.responseStatusCode] })]
    | some e =>
        setA rest r.requestUrl
          { count := e.count + 1
            mostCommonStatusCode := mostCommonStatusCode e.allStatusCodes
            allStatusCodes := [] }
  else rest

/-- The rest loop folded from an empty `errors.rest`. -/
def restClassify (reqs : List MergedRequest) : List (String × RestErrorSummary) :=
  reqs.foldl restStep []

/-- One iteration of the role loop (lines 318-412): gql operations in
insertion order, then the role's rest requests. -/
def processRole (sec : ErrorsSection) (role : RoleMetrics) : ErrorsSection :=
  { gql := role.gqlOperations.foldl
      (fun g p => processGqlOperation g p.1 p.2.requests) sec.gql
    rest := role.restRequests.foldl restStep sec.rest }

/-- `extendJsonWithErrors` (lines 307-415): seed `errors` if absent,
then walk the roles in insertion order. -/
def extendJsonWithErrors (m : MergedMetrics) : MergedMetrics :=
  let init : ErrorsSection :=
    match m.errors with
    | some e => e
    | none => { gql := [], rest := [] }
  { m with errors := some (m.roles.foldl (fun sec p => processRole sec p.2) init) }

/-- Failure mode of `mergeNetworkTraces`: `readdirSync` threw, the
`catch` only logs, `files` stays `undefined`, and `files.forEach`
throws a `TypeError` (lines 221-228). -/
inductive MergeError where
  | filesUndefined
  deriving DecidableEq, Repr

/-- `Metrics.mergeNetworkTraces` (lines 215-433).  `store = none` models
a missing Trace Store directory (`readdirSync` throws); `some files`
models the directory listing.  Report writing and store deletion are
filesystem effects outside the returned value. -/
def mergeNetworkTraces (store : Option (List TraceFile)) :
    Except MergeError MergedMetrics :=
  match store with
  | none => Except.error MergeError.filesUndefined
  | some files =>
      Except.ok (extendJsonWithErrors { roles := mergeRoles files, errors := none })

/-- Claim C6 concerns this behaviour: when the Trace Store directory is
missing, the code logs "Metrics folder was not found" but then calls
`forEach` on the still-undefined `files`, so the merge aborts with a
`TypeError` instead of treating the store as empty. -/
theorem merge_missing_store_dir_crashes :
    mergeNetworkTraces none = Except.error MergeError.filesUndefined := rfl

/-! ### Association-list lemmas -/

lemma lookupA_cons {β : Type} (k₀ : String) (v : β) (rest : List (String × β))
    (k : String) :
    lookupA ((k₀, v) :: rest) k = if k₀ = k then some v else lookupA rest k := rfl

lemma lookupA_append_of_none {β : Type} (l1 l2 : List (String × β)) (k : String)
    (h : lookupA l1 k = none) : lookupA (l1 ++ l2) k = lookupA l2 k := by
  induction l1 with
  | nil => rfl
  | cons p rest ih =>
      obtain ⟨k₀, v⟩ := p
      rw [lookupA_cons] at h
      rw [List.cons_append, lookupA_cons]
      by_cases hk : k₀ = k
      · rw [if_pos hk] at h; exact Option.noConfusion h
      · rw [if_neg hk] at h
        rw [if_neg hk]
        exact ih h

lemma lookupA_append_of_some {β : Type} (l1 l2 : List (String × β)) (k : String)
    (v : β) (h : lookupA l1 k = some v) : lookupA (l1 ++ l2) k = some v := by
  induction l1 with
  | nil => exact Option.noConfusion h
  | cons p rest ih =>
      obtain ⟨k₀, w⟩ := p
      rw [lookupA_cons] at h
      rw [List.cons_append, lookupA_cons]
      by_cases hk : k₀ = k
      · rw [if_pos hk] at h ⊢; exact h
      · rw [if_neg hk] at h ⊢; exact ih h

lemma updA_cons {β : Type} (f : β → β) (k₀ : String) (v : β)
    (rest : List (String × β)) (k : String) :
    updA f ((k₀, v) :: rest) k =
      if k₀ = k then (k₀, f v) :: rest else (k₀, v) :: updA f rest k := rfl

/-- `updA` with an `overallInformation`-preserving function leaves every
role's `overallInformation` unchanged. -/
lemma lookupA_updA_overall (f : RoleMetrics → RoleMetrics)
    (hf : ∀ x, (f x).overallInformation = x.overallInformation)
    (st : List (String × RoleMetrics)) (k k' : String) :
    (lookupA (updA f st k) k').map (fun rm => rm.overallInformation) =
      (lookupA st k').map (fun rm => rm.overallInformation) := by
  induction st with
  | nil => rfl
  | cons p rest ih =>
      obtain ⟨k₀, v⟩ := p
      rw [updA_cons]
      by_cases hk : k₀ = k
      · rw [if_pos hk, lookupA_cons, lookupA_cons]
        by_cases hk' : k₀ = k'
        · rw [if_pos hk', if_pos hk']
          simp [hf]
        · rw [if_neg hk', if_neg hk']
      · rw [if_neg hk, lookupA_cons, lookupA_cons]
        by_cases hk' : k₀ = k'
        · rw [if_pos hk', if_pos hk']
        · rw [if_neg hk', if_neg hk']
          exact ih

/-- Routing one request never touches any role's `overallInformation`. -/
lemma mergeRequest_overall (st : List (String × RoleMetrics)) (role k : String)
    (r : RequestData) :
    (lookupA (mergeRequest st role r) k).map (fun rm => rm.overallInformation) =
      (lookupA st k).map (fun rm => rm.overallInformation) := by
  unfold mergeRequest
  split
  · rfl
  · split
    · split
      · rfl
      · apply lookupA_updA_overall
        intro x; rfl
    · apply lookupA_updA_overall
      intro x; rfl

/-- Folding the request loop never touches any `overallInformation`. -/
lemma mergeRequests_overall (reqs : List RequestData) :
    ∀ (st : List (String × RoleMetrics)) (role k : String),
      (lookupA (reqs.foldl (fun st r => mergeRequest st role r) st) k).map
          (fun rm => rm.overallInformation) =
        (lookupA st k).map (fun rm => rm.overallInformation) := by
  induction reqs with
  | nil => intro st role k; rfl
  | cons r reqs ih =>
      intro st role k
      rw [List.foldl_cons, ih, mergeRequest_overall]

/-- Merging a parsed file for a fresh role installs that file's
`overallInformation` for the role. -/
lemma mergeParsed_overall_new (st : List (String × RoleMetrics)) (role : String)
    (m : ParsedTrace) (hnone : lookupA st role = none) :
    (lookupA (mergeParsed st role m) role).map (fun rm => rm.overallInformation) =
      some m.overallInformation := by
  have hseed : lookupA (st ++ [(role, seedRole m)]) role = some (seedRole m) := by
    rw [lookupA_append_of_none _ _ _ hnone, lookupA_cons, if_pos rfl]
  have hif : (if (lookupA st role).isNone then st ++ [(role, seedRole m)] else st) =
      st ++ [(role, seedRole m)] := by
    rw [hnone]; rfl
  unfold mergeParsed
  rw [hif]
  cases hreq : m.requests with
  | none => rw [hseed]; rfl
  | some reqs => rw [mergeRequests_overall, hseed]; rfl

/-- Merging a parsed file leaves the `overallInformation` of every role
that already exists unchanged. -/
lemma mergeParsed_overall_preserved (st : List (String × RoleMetrics))
    (role : String) (m : ParsedTrace) (k : String)
    (hk : (lookupA st k).isSome) :
    (lookupA (mergeParsed st role m) k).map (fun rm => rm.overallInformation) =
      (lookupA st k).map (fun rm => rm.overallInformation) := by
  obtain ⟨v, hv⟩ := Option.isSome_iff_exists.mp hk
  have hst1 :
      lookupA (if (lookupA st role).isNone then st ++ [(role, seedRole m)] else st) k =
        lookupA st k := by
    split
    · rw [lookupA_append_of_some _ _ _ _ hv, hv]
    · rfl
  unfold mergeParsed
  cases hreq : m.requests with
  | none => rw [hst1]
  | some reqs => rw [mergeRequests_overall, hst1]

/-- Claim C3 as amended: when two trace files for the same role are
merged, the FIRST file's `overallInformation` is the one present in the
merged report; the second file's value is ignored (neither summed nor
replacing it), because the seeding at line 242 only runs for a role not
seen before and nothing else ever writes `overallInformation`. -/
theorem merge_same_role_keeps_first_overall (fA fB : TraceFile)
    (mA mB : ParsedTrace)
    (hA : fA.contents = some mA) (hB : fB.contents = some mB)
    (hrole : roleOfFileName fB.name = roleOfFileName fA.name) :
    (lookupA (mergeRoles [fA, fB]) (roleOfFileName fA.name)).map
      (fun rm => rm.overallInformation) = some mA.overallInformation := by
  have hfA : mergeFile [] fA = mergeParsed [] (roleOfFileName fA.name) mA := by
    unfold mergeFile; rw [hA]
  have hfB : ∀ st, mergeFile st fB = mergeParsed st (roleOfFileName fB.name) mB := by
    intro st; unfold mergeFile; rw [hB]
  have h1 : (lookupA (mergeFile [] fA) (roleOfFileName fA.name)).map
      (fun rm => rm.overallInformation) = some mA.overallInformation := by
    rw [hfA]
    exact mergeParsed_overall_new [] _ mA rfl
  have hsome : (lookupA (mergeFile [] fA) (roleOfFileName fA.name)).isSome := by
    cases hl : lookupA (mergeFile [] fA) (roleOfFileName fA.name) with
    | none => rw [hl] at h1; exact Option.noConfusion h1
    | some v => rfl
  show (lookupA (mergeFile (mergeFile [] fA) fB) (roleOfFileName fA.name)).map
      (fun rm => rm.overallInformation) = some mA.overallInformation
  rw [hfB, hrole, mergeParsed_overall_preserved _ _ _ _ hsome, h1]

/-- Trace files for the C3 scenario: same role "user", file A with
`totalRequests = 5`, file B with `totalRequests = 8`. -/
def parsedA3 : ParsedTrace :=
  { overallInformation :=
      { avgResponseTime := 0, totalRequests := 5, totalTime := 50, contextTime := 0 }
    requests := some [] }

def parsedB3 : ParsedTrace :=
  { overallInformation :=
      { avgResponseTime := 0, totalRequests := 8, totalTime := 80, contextTime := 0 }
    requests := some [] }

def fileA3 : TraceFile :=
  { name := "user_metrics_report_100.json", contents := some parsedA3 }

def fileB3 : TraceFile :=
  { name := "user_metrics_report_200.json", contents := some parsedB3 }

/-- Counterexample to C3 as stated: merging file A (`totalRequests = 5`)
then file B (`totalRequests = 8`) for role "user" leaves the merged
`overallInformation.totalRequests` at 5 — the second file does NOT
replace it, while the claim says the merged value is 8. -/
theorem merge_same_role_overall_not_replaced :
    (lookupA (mergeRoles [fileA3, fileB3]) "user").map
      (fun rm => rm.overallInformation.totalRequests) = some 5 ∧ (5 : ℕ) ≠ 8 :=
  ⟨by decide, by decide⟩

/-- Witness for the amended C3 at the concrete pair of files. -/
theorem merge_same_role_keeps_first_overall_witness :
    (lookupA (mergeRoles [fileA3, fileB3]) (roleOfFileName fileA3.name)).map
      (fun rm => rm.overallInformation) = some parsedA3.overallInformation :=
  merge_same_role_keeps_first_overall fileA3 fileB3 parsedA3 parsedB3 rfl rfl rfl

/-! ## Claim C4: resource bucket `[404, 404, 500]` for URL "/a" -/

/-- Zero `overallInformation`, for building concrete merged reports. -/
def zeroOverall : OverallInformation :=
  { avgResponseTime := 0, totalRequests := 0, totalTime := 0, contextTime := 0 }

/-- A minimal merged rest-bucket request with the given URL and
normalized status code. -/
def mkRestReq (url : String) (code : ℕ) : MergedRequest :=
  { statusCode := code
    requestUrl := url
    requestHeaders := []
    requestBody := none
    responseUrl := url
    responseHeaders := []
    responseBody := "x"
    responseTime := 10
    responseStatusCode := code }

/-- One role whose resource bucket holds the C4 requests. -/
def roleC4 : RoleMetrics :=
  { overallInformation := zeroOverall
    gqlOperations := []
    restRequests := [mkRestReq "/a" 404, mkRestReq "/a" 404, mkRestReq "/a" 500] }

def mmC4 : MergedMetrics := { roles := [("user", roleC4)], errors := none }

/-- Claim C4 evidence: for a resource bucket with normalized status
codes `[404, 404, 500]` for URL "/a", the classifier's entry has
`count = 3` but `mostCommonStatusCode = null` (the claim and the spec's
own example expect 404).  After the second erroring request the entry's
`allStatusCodes` is wiped to `[]` through the never-populated
`errors["rest-" + url]` key (line 407), so the third update recomputes the
most common code over an empty frequency map and stores null. -/
theorem rest_classifier_404_404_500_most_common_null :
    (extendJsonWithErrors mmC4).errors.map (fun sec => lookupA sec.rest "/a") =
      some (some { count := 3, mostCommonStatusCode := none, allStatusCodes := [] }) := by
  decide

/-! ## Claim C7: what the frequency-map reduction actually picks -/

lemma mem_insertAsc (n a : ℕ) (l : List ℕ) :
    a ∈ insertAsc n l ↔ a = n ∨ a ∈ l := by
  induction l with
  | nil => simp [insertAsc]
  | cons m ms ih =>
      by_cases h : n ≤ m
      · simp [insertAsc, h]
      · simp [insertAsc, h, ih]
        tauto

lemma pairwise_insertAsc (n : ℕ) (l : List ℕ) (h : l.Pairwise (· ≤ ·)) :
    (insertAsc n l).Pairwise (· ≤ ·) := by
  induction l with
  | nil => simp [insertAsc]
  | cons m ms ih =>
      obtain ⟨hm, hms⟩ := List.pairwise_cons.mp h
      by_cases hnm : n ≤ m
      · rw [insertAsc, if_pos hnm]
        refine List.pairwise_cons.mpr ⟨?_, h⟩
        intro b hb
        rcases List.mem_cons.mp hb with hb | hb
        · exact hb ▸ hnm
        · exact le_trans hnm (hm b hb)
      · rw [insertAsc, if_neg hnm]
        refine List.pairwise_cons.mpr ⟨?_, ih hms⟩
        intro b hb
        rcases (mem_insertAsc n b ms).mp hb with hb | hb
        · exact hb ▸ le_of_not_le hnm
        · exact hm b hb

lemma mem_sortAsc (a : ℕ) (l : List ℕ) : a ∈ sortAsc l ↔ a ∈ l := by
  induction l with
  | nil => simp [sortAsc]
  | cons m ms ih =>
      show a ∈ insertAsc m (sortAsc ms) ↔ _
      rw [mem_insertAsc]
      simp [ih]

lemma pairwise_sortAsc (l : List ℕ) : (sortAsc l).Pairwise (· ≤ ·) := by
  induction l with
  | nil => simp [sortAsc]
  | cons m ms ih => exact pairwise_insertAsc m (sortAsc ms) ih

lemma mem_objectKeysAsc (a : ℕ) (l : List ℕ) :
    a ∈ objectKeysAsc l ↔ a ∈ l := by
  rw [objectKeysAsc, mem_sortAsc, List.mem_dedup]

lemma pairwise_objectKeysAsc (l : List ℕ) :
    (objectKeysAsc l).Pairwise (· ≤ ·) :=
  pairwise_sortAsc l.dedup

/-- The reduction result is the accumulator or one of the items. -/
lemma reduceByCount_mem (l : List ℕ) :
    ∀ (ks : List ℕ) (a : ℕ), reduceByCount l a ks = a ∨ reduceByCount l a ks ∈ ks := by
  intro ks
  induction ks with
  | nil => intro a; left; rfl
  | cons b bs ih =>
      intro a
      have hstep : reduceByCount l a (b :: bs) =
          reduceByCount l (if l.count a > l.count b then a else b) bs := rfl
      rw [hstep]
      rcases ih (if l.count a > l.count b then a else b) with h | h
      · rw [h]
        by_cases hc : l.count a > l.count b
        · rw [if_pos hc]; left; rfl
        · rw [if_neg hc]; right; exact List.mem_cons_self b bs
      · right; exact List.mem_cons_of_mem b h

/-- The reduction result's frequency dominates the accumulator's and
every item's. -/
lemma reduceByCount_count_ge (l : List ℕ) :
    ∀ (ks : List ℕ) (a : ℕ),
      l.count a ≤ l.count (reduceByCount l a ks) ∧
        ∀ b ∈ ks, l.count b ≤ l.count (reduceByCount l a ks) := by
  intro ks
  induction ks with
  | nil => intro a; exact ⟨le_refl _, by simp⟩
  | cons b bs ih =>
      intro a
      have hstep : reduceByCount l a (b :: bs) =
          reduceByCount l (if l.count a > l.count b then a else b) bs := rfl
      rw [hstep]
      obtain ⟨ih1, ih2⟩ := ih (if l.count a > l.count b then a else b)
      have hfab : l.count a ≤ l.count (if l.count a > l.count b then a else b) ∧
          l.count b ≤ l.count (if l.count a > l.count b then a else b) := by
        by_cases hc : l.count a > l.count b
        · rw [if_pos hc]; exact ⟨le_refl _, le_of_lt hc⟩
        · rw [if_neg hc]; exact ⟨le_of_not_lt hc, le_refl _⟩
      refine ⟨le_trans hfab.1 ih1, ?_⟩
      intro c hc
      rcases List.mem_cons.mp hc with hc | hc
      · rw [hc]; exact le_trans hfab.2 ih1
      · exact ih2 c hc

/-- Over an ascending key list the reduction breaks frequency ties in
favour of the later — hence numerically largest — key. -/
lemma reduceByCount_tie_largest (l : List ℕ) :
    ∀ (ks : List ℕ) (a : ℕ), (∀ b ∈ ks, a ≤ b) → ks.Pairwise (· ≤ ·) →
      (l.count a = l.count (reduceByCount l a ks) → a ≤ reduceByCount l a ks) ∧
        ∀ b ∈ ks, l.count b = l.count (reduceByCount l a ks) →
          b ≤ reduceByCount l a ks := by
  intro ks
  induction ks with
  | nil => intro a _ _; exact ⟨fun _ => le_refl _, by simp⟩
  | cons b bs ih =>
      intro a hab hpw
      have hstep : reduceByCount l a (b :: bs) =
          reduceByCount l (if l.count a > l.count b then a else b) bs := rfl
      rw [hstep]
      have hb : a ≤ b := hab b (List.mem_cons_self b bs)
      obtain ⟨hbsle, hpbs⟩ := List.pairwise_cons.mp hpw
      have hfle : ∀ c ∈ bs, (if l.count a > l.count b then a else b) ≤ c := by
        intro c hc
        by_cases h : l.count a > l.count b
        · rw [if_pos h]; exact le_trans hb (hbsle c hc)
        · rw [if_neg h]; exact hbsle c hc
      obtain ⟨ih1, ih2⟩ := ih (if l.count a > l.count b then a else b) hfle hpbs
      obtain ⟨hge1, _⟩ := reduceByCount_count_ge l bs
        (if l.count a > l.count b then a else b)
      constructor
      · intro hcnt
        by_cases h : l.count a > l.count b
        · rw [if_pos h] at ih1 ⊢
          rw [if_pos h] at hcnt
          exact ih1 hcnt
        · rw [if_neg h] at ih1 hge1 hcnt ⊢
          have hba : l.count b = l.count a :=
            le_antisymm (hcnt ▸ hge1) (le_of_not_lt h)
          exact le_trans hb (ih1 (hba ▸ hcnt))
      · intro c hc hcnt
        rcases List.mem_cons.mp hc with hc | hc
        · subst hc
          by_cases h : l.count a > l.count c
          · exfalso
            rw [if_pos h] at hge1 hcnt
            exact absurd hcnt (ne_of_lt (lt_of_lt_of_le h hge1))
          · rw [if_neg h] at ih1 hcnt ⊢
            exact ih1 hcnt
        · exact ih2 c hc hcnt

/-- Claim C7 as amended: in both classifier paths
`mostCommonStatusCode` is computed by `mostCommonStatusCode` over the
respective frequency source, and that reduction returns a status code
of maximal frequency, breaking frequency ties in favour of the
numerically LARGEST tied code — not the first-appearing one — because
`Object.keys` iterates integer-like keys in ascending numeric order and
the `reduce` keeps the later key on equal counts. -/
theorem mostCommon_is_max_tie_largest (l : List ℕ) (hl : l ≠ []) :
    ∃ m, mostCommonStatusCode l = some m ∧ m ∈ l ∧
      (∀ c ∈ l, l.count c ≤ l.count m) ∧
      (∀ c ∈ l, l.count c = l.count m → c ≤ m) := by
  obtain ⟨a, ha⟩ := List.exists_mem_of_ne_nil l hl
  have hka : a ∈ objectKeysAsc l := (mem_objectKeysAsc a l).mpr ha
  cases hk : objectKeysAsc l with
  | nil => rw [hk] at hka; cases hka
  | cons k ks =>
      have hpw := pairwise_objectKeysAsc l
      rw [hk] at hpw
      obtain ⟨hhead, htail⟩ := List.pairwise_cons.mp hpw
      refine ⟨reduceByCount l k ks, ?_, ?_, ?_, ?_⟩
      · rw [mostCommonStatusCode, hk]
      · rcases reduceByCount_mem l ks k with h | h
        · rw [h]
          exact (mem_objectKeysAsc k l).mp (hk ▸ List.mem_cons_self k ks)
        · exact (mem_objectKeysAsc _ l).mp (hk ▸ List.mem_cons_of_mem k h)
      · intro c hc
        have hck : c ∈ objectKeysAsc l := (mem_objectKeysAsc c l).mpr hc
        rw [hk] at hck
        obtain ⟨hge1, hge2⟩ := reduceByCount_count_ge l ks k
        rcases List.mem_cons.mp hck with hck | hck
        · rw [hck]; exact hge1
        · exact hge2 c hck
      · intro c hc hcnt
        have hck : c ∈ objectKeysAsc l := (mem_objectKeysAsc c l).mpr hc
        rw [hk] at hck
        obtain ⟨ht1, ht2⟩ := reduceByCount_tie_largest l ks k hhead htail
        rcases List.mem_cons.mp hck with hck | hck
        · subst hck; exact ht1 hcnt
        · exact ht2 c hck hcnt

/-- Witness for the amended C7 at the concrete code list `[404, 500]`. -/
theorem mostCommon_is_max_tie_largest_witness :
    ([404, 500] : List ℕ) ≠ [] ∧
    ∃ m, mostCommonStatusCode [404, 500] = some m ∧ m ∈ ([404, 500] : List ℕ) ∧
      (∀ c ∈ ([404, 500] : List ℕ),
        ([404, 500] : List ℕ).count c ≤ ([404, 500] : List ℕ).count m) ∧
      (∀ c ∈ ([404, 500] : List ℕ),
        ([404, 500] : List ℕ).count c = ([404, 500] : List ℕ).count m → c ≤ m) :=
  ⟨by decide, mostCommon_is_max_tie_largest [404, 500] (by decide)⟩

/-- The C7 counterexample scenario: one gql operation "Op" whose two
requests error with status codes 404 (first) and 500 (second). -/
def mkGqlReq (code : ℕ) (body : String) : MergedRequest :=
  { statusCode := code
    requestUrl := "https://host/graphql"
    requestHeaders := []
    requestBody := some { operationName := "Op" }
    responseUrl := "https://host/graphql"
    responseHeaders := []
    responseBody := body
    responseTime := 10
    responseStatusCode := code }

def op7 : OperationBucket := { requests := [mkGqlReq 404 "x", mkGqlReq 500 "y"] }

def role7 : RoleMetrics :=
  { overallInformation := zeroOverall
    gqlOperations := [("Op", op7)]
    restRequests := [] }

def mm7 : MergedMetrics := { roles := [("user", role7)], errors := none }

/-- Counterexample to C7 as stated: among the erroring requests of "Op"
the codes 404 and 500 are tied (one occurrence each) and 404 appears
first, so first-appearance tie-breaking would give 404; the classifier
stores 500. -/
theorem gql_tie_not_broken_by_first_appearance :
    errorCodesOf op7.requests = [404, 500] ∧
    (errorCodesOf op7.requests).count 404 = (errorCodesOf op7.requests).count 500 ∧
    (extendJsonWithErrors mm7).errors.map
        (fun sec => (lookupA sec.gql "Op").map (fun s => s.mostCommonStatusCode)) =
      some (some (some 500)) := by
  refine ⟨by decide, by decide, by decide⟩

/-! ## Claim C8: the gql `allStatusCodes` value -/

lemma lookupA_setA_self {β : Type} (st : List (String × β)) (k : String) (v : β) :
    lookupA (setA st k v) k = some v := by
  induction st with
  | nil => simp [setA, lookupA]
  | cons p rest ih =>
      obtain ⟨k₀, w⟩ := p
      by_cases hk : k₀ = k
      · rw [setA, if_pos hk, lookupA_cons, if_pos rfl]
      · rw [setA, if_neg hk, lookupA_cons, if_neg hk]
        exact ih

lemma lookupA_setA_ne {β : Type} (st : List (String × β)) (k k' : String)
    (v : β) (h : k ≠ k') : lookupA (setA st k v) k' = lookupA st k' := by
  induction st with
  | nil => simp [setA, lookupA, h]
  | cons p rest ih =>
      obtain ⟨k₀, w⟩ := p
      by_cases hk : k₀ = k
      · rw [setA, if_pos hk, lookupA_cons, lookupA_cons]
        subst hk
        rw [if_neg h, if_neg h]
      · rw [setA, if_neg hk, lookupA_cons, lookupA_cons]
        by_cases hk' : k₀ = k'
        · rw [if_pos hk', if_pos hk']
        · rw [if_neg hk', if_neg hk']
          exact ih

lemma gqlStep_of_trigger (opName : String) (reqs : List MergedRequest)
    (g : List (String × GqlErrorSummary)) (r : MergedRequest)
    (htr : gqlTrigger r = true) (s : GqlErrorSummary)
    (hs : gqlSummaryOpt reqs = some s) :
    gqlStep opName reqs g r = setA g opName s := by
  unfold gqlStep
  rw [if_pos htr, hs]

lemma gqlStep_of_not_trigger (opName : String) (reqs : List MergedRequest)
    (g : List (String × GqlErrorSummary)) (r : MergedRequest)
    (htr : ¬gqlTrigger r = true) :
    gqlStep opName reqs g r = g := by
  unfold gqlStep
  rw [if_neg htr]

lemma gqlStep_lookup_ne (opName k : String) (h : opName ≠ k)
    (reqs : List MergedRequest) (g : List (String × GqlErrorSummary))
    (r : MergedRequest) :
    lookupA (gqlStep opName reqs g r) k = lookupA g k := by
  unfold gqlStep
  by_cases htr : gqlTrigger r = true
  · rw [if_pos htr]
    cases gqlSummaryOpt reqs with
    | none => rfl
    | some s => exact lookupA_setA_ne _ _ _ _ h
  · rw [if_neg htr]

/-- Once the operation's entry holds the summary, the remaining
iterations of the gql request loop keep it there. -/
lemma gqlFold_keeps (opName : String) (reqs : List MergedRequest)
    (s : GqlErrorSummary) (hs : gqlSummaryOpt reqs = some s) :
    ∀ (rs : List MergedRequest) (g : List (String × GqlErrorSummary)),
      lookupA g opName = some s →
      lookupA (rs.foldl (gqlStep opName reqs) g) opName = some s := by
  intro rs
  induction rs with
  | nil => intro g hg; exact hg
  | cons r rs ih =>
      intro g hg
      rw [List.foldl_cons]
      by_cases htr : gqlTrigger r = true
      · rw [gqlStep_of_trigger opName reqs g r htr s hs]
        exact ih _ (lookupA_setA_self g opName s)
      · rw [gqlStep_of_not_trigger opName reqs g r htr]
        exact ih g hg

/-- If some request of the loop triggers, the entry ends up holding the
operation's summary. -/
lemma gqlFold_sets (opName : String) (reqs : List MergedRequest)
    (s : GqlErrorSummary) (hs : gqlSummaryOpt reqs = some s) :
    ∀ (rs : List MergedRequest) (g : List (String × GqlErrorSummary)),
      (∃ r ∈ rs, gqlTrigger r = true) →
      lookupA (rs.foldl (gqlStep opName reqs) g) opName = some s := by
  intro rs
  induction rs with
  | nil => intro g h; obtain ⟨r, hr, _⟩ := h; cases hr
  | cons r rs ih =>
      intro g h
      rw [List.foldl_cons]
      by_cases htr : gqlTrigger r = true
      · rw [gqlStep_of_trigger opName reqs g r htr s hs]
        exact gqlFold_keeps opName reqs s hs rs _ (lookupA_setA_self g opName s)
      · rw [gqlStep_of_not_trigger opName reqs g r htr]
        obtain ⟨r', hr', htr'⟩ := h
        rcases List.mem_cons.mp hr' with hr' | hr'
        · exact absurd (hr' ▸ htr') htr
        · exact ih g ⟨r', hr', htr'⟩

/-- The gql loop for one operation never touches another operation's
entry. -/
lemma gqlFold_lookup_ne (opName k : String) (h : opName ≠ k)
    (reqs : List MergedRequest) :
    ∀ (rs : List MergedRequest) (g : List (String × GqlErrorSummary)),
      lookupA (rs.foldl (gqlStep opName reqs) g) k = lookupA g k := by
  intro rs
  induction rs with
  | nil => intro g; rfl
  | cons r rs ih =>
      intro g
      rw [List.foldl_cons, ih, gqlStep_lookup_ne opName k h]

/-- Claim C8: when an operation has at least one erroring request (with
truthy body), the classifier stores under its `allStatusCodes` key a
SINGLE status code — the result of the most-frequent reduction over the
erroring requests' status codes — not a list of the observed codes. -/
theorem gql_allStatusCodes_single_most_frequent
    (g : List (String × GqlErrorSummary)) (opName : String)
    (reqs : List MergedRequest) (htrig : ∃ r ∈ reqs, gqlTrigger r = true) :
    ∃ n, reduceMostFrequent (errorCodesOf reqs) = some n ∧
      lookupA (processGqlOperation g opName reqs) opName =
        some { count := (errorCodesOf reqs).length
               mostCommonStatusCode := mostCommonStatusCode (errorCodesOf reqs)
               allStatusCodes := StatusCodesField.single n } := by
  obtain ⟨r, hr, htr⟩ := htrig
  have hpred : gqlErrorPred r = true := by
    have h := htr
    unfold gqlTrigger at h
    exact ((Bool.and_eq_true _ _).mp h).2
  have hmem : r.responseStatusCode ∈ errorCodesOf reqs := by
    unfold errorCodesOf
    exact List.mem_map_of_mem _ (List.mem_filter.mpr ⟨hr, hpred⟩)
  cases hc : errorCodesOf reqs with
  | nil => rw [hc] at hmem; cases hmem
  | cons c cs =>
      refine ⟨reduceByCount (c :: cs) c cs, rfl, ?_⟩
      have hs : gqlSummaryOpt reqs =
          some { count := (c :: cs).length
                 mostCommonStatusCode := mostCommonStatusCode (c :: cs)
                 allStatusCodes :=
                   StatusCodesField.single (reduceByCount (c :: cs) c cs) } := by
        unfold gqlSummaryOpt
        rw [hc]
        rfl
      exact gqlFold_sets opName reqs _ hs reqs g ⟨r, hr, htr⟩

/-- Witness for C8 at the concrete operation bucket `op7`. -/
theorem gql_allStatusCodes_single_witness :
    ∃ n, reduceMostFrequent (errorCodesOf op7.requests) = some n ∧
      lookupA (processGqlOperation [] "Op" op7.requests) "Op" =
        some { count := (errorCodesOf op7.requests).length
               mostCommonStatusCode := mostCommonStatusCode (errorCodesOf op7.requests)
               allStatusCodes := StatusCodesField.single n } :=
  gql_allStatusCodes_single_most_frequent [] "Op" op7.requests (by decide)

/-! ## Claim C9: rest `allStatusCodes` after the first increment -/

/-- Number of erroring requests carrying the given URL. -/
def errCntRest (url : String) (l : List MergedRequest) : ℕ :=
  (l.filter (fun r => (r.requestUrl == url) && isRestError r)).length

/-- Invariant of the rest loop: an entry exists exactly for URLs with at
least one erroring request so far; its `count` tracks them, and as soon
as `count` reaches 2 the `allStatusCodes` list has been wiped to `[]`
by the never-populated `rest-`-prefixed key. -/
def RestInvariant (processed : List MergedRequest)
    (st : List (String × RestErrorSummary)) : Prop :=
  ∀ url : String,
    (lookupA st url = none ↔ errCntRest url processed = 0) ∧
    ∀ e, lookupA st url = some e →
      e.count = errCntRest url processed ∧ 1 ≤ e.count ∧
        (2 ≤ e.count → e.allStatusCodes = [])

lemma errCntRest_append_one (url : String) (p : List MergedRequest)
    (r : MergedRequest) :
    errCntRest url (p ++ [r]) =
      errCntRest url p + (if (r.requestUrl == url) && isRestError r then 1 else 0) := by
  unfold errCntRest
  rw [List.filter_append, List.length_append]
  by_cases hx : ((r.requestUrl == url) && isRestError r) = true
  · rw [if_pos hx]
    simp [List.filter, hx]
  · rw [if_neg hx]
    simp only [Bool.not_eq_true] at hx
    simp [List.filter, hx]

lemma restStep_inv (p : List MergedRequest) (st : List (String × RestErrorSummary))
    (r : MergedRequest) (h : RestInvariant p st) :
    RestInvariant (p ++ [r]) (restStep st r) := by
  intro url
  have hcnt := errCntRest_append_one url p r
  by_cases he : isRestError r = true
  · by_cases hu : (r.requestUrl == url) = true
    · have hueq : r.requestUrl = url := by simpa using hu
      have hcnt1 : errCntRest url (p ++ [r]) = errCntRest url p + 1 := by
        rw [hcnt, hu, he]
        rfl
      unfold restStep
      rw [if_pos he, hueq]
      cases hl : lookupA st url with
      | none =>
          constructor
          · constructor
            · intro habs
              rw [lookupA_append_of_none st _ url hl, lookupA_cons, if_pos rfl] at habs
              exact Option.noConfusion habs
            · intro habs
              rw [hcnt1] at habs
              omega
          · intro e hee
            rw [lookupA_append_of_none st _ url hl, lookupA_cons, if_pos rfl] at hee
            obtain rfl := Option.some.inj hee
            have h0 : errCntRest url p = 0 := (h url).1.mp hl
            refine ⟨?_, le_refl 1, ?_⟩
            · show 1 = errCntRest url (p ++ [r])
              rw [hcnt1, h0]
            · intro habs
              exact absurd (show (2 : ℕ) ≤ 1 from habs) (by omega)
      | some e0 =>
          obtain ⟨hc0, hge0, _⟩ := (h url).2 e0 hl
          constructor
          · constructor
            · intro habs
              rw [lookupA_setA_self] at habs
              exact Option.noConfusion habs
            · intro habs
              rw [hcnt1] at habs
              omega
          · intro e hee
            rw [lookupA_setA_self] at hee
            obtain rfl := Option.some.inj hee
            refine ⟨?_, Nat.le_add_left 1 e0.count, fun _ => rfl⟩
            show e0.count + 1 = errCntRest url (p ++ [r])
            rw [hcnt1, hc0]
    · have hne : r.requestUrl ≠ url := by simpa using hu
      have hcnt0 : errCntRest url (p ++ [r]) = errCntRest url p := by
        have huf : (r.requestUrl == url) = false := by
          simp only [Bool.not_eq_true] at hu
          exact hu
        rw [hcnt, huf]
        rfl
      have hlook : lookupA (restStep st r) url = lookupA st url := by
        unfold restStep
        rw [if_pos he]
        cases hl : lookupA st r.requestUrl with
        | none =>
            cases hs : lookupA st url with
            | none =>
                rw [lookupA_append_of_none st _ url hs, lookupA_cons, if_neg hne]
                rfl
            | some v => rw [lookupA_append_of_some st _ url v hs]
        | some e0 => exact lookupA_setA_ne st r.requestUrl url _ hne
      rw [hlook, hcnt0]
      exact h url
  · have hstep : restStep st r = st := by
      unfold restStep
      rw [if_neg he]
    have hsame : errCntRest url (p ++ [r]) = errCntRest url p := by
      have hef : isRestError r = false := by
        simp only [Bool.not_eq_true] at he
        exact he
      rw [hcnt, hef, Bool.and_false]
      rfl
    rw [hstep, hsame]
    exact h url

lemma restFold_inv (rs : List MergedRequest) :
    ∀ (p : List MergedRequest) (st : List (String × RestErrorSummary)),
      RestInvariant p st → RestInvariant (p ++ rs) (rs.foldl restStep st) := by
  induction rs with
  | nil =>
      intro p st h
      simpa using h
  | cons r rs ih =>
      intro p st h
      rw [List.foldl_cons]
      have h2 := ih (p ++ [r]) (restStep st r) (restStep_inv p st r h)
      have hl : (p ++ [r]) ++ rs = p ++ r :: rs := by simp
      rw [hl] at h2
      exact h2

lemma restInvariant_nil : RestInvariant [] [] := by
  intro url
  refine ⟨⟨fun _ => rfl, fun _ => rfl⟩, ?_⟩
  intro e he
  exact Option.noConfusion he

/-- The `rest` half of the classifier is the rest loop folded over all
roles' resource requests in order, starting from the empty object. -/
lemma rolesFold_rest (roles : List (String × RoleMetrics)) :
    ∀ sec : ErrorsSection,
      (roles.foldl (fun sec p => processRole sec p.2) sec).rest =
        ((roles.map (fun p => p.2.restRequests)).flatten).foldl restStep sec.rest := by
  induction roles with
  | nil => intro sec; rfl
  | cons p roles ih =>
      intro sec
      rw [List.foldl_cons, ih, List.map_cons, List.flatten_cons, List.foldl_append]
      rfl

lemma extend_roles_rest (m : MergedMetrics) (hm : m.errors = none) :
    ∃ sec, (extendJsonWithErrors m).errors = some sec ∧
      sec.rest = ((m.roles.map (fun p => p.2.restRequests)).flatten).foldl restStep [] := by
  refine ⟨_, rfl, ?_⟩
  rw [rolesFold_rest]
  have hinit : (match m.errors with
      | some e => e
      | none => ({ gql := [], rest := [] } : ErrorsSection)) =
      ({ gql := [], rest := [] } : ErrorsSection) := by rw [hm]
  rw [hinit]

/-- Claim C9: whenever a URL has two or more erroring requests across
the merged resource buckets, its final `ErrorSummary.allStatusCodes` is
the empty list — the update after the first increment reads the
never-populated `rest-`-prefixed `errors` key. -/
theorem rest_allStatusCodes_empty_after_second_error (m : MergedMetrics)
    (hm : m.errors = none) (url : String)
    (h2 : 2 ≤ errCntRest url ((m.roles.map (fun p => p.2.restRequests)).flatten)) :
    ∃ sec e, (extendJsonWithErrors m).errors = some sec ∧
      lookupA sec.rest url = some e ∧
      e.count = errCntRest url ((m.roles.map (fun p => p.2.restRequests)).flatten) ∧
      e.allStatusCodes = [] := by
  obtain ⟨sec, hsec, hrest⟩ := extend_roles_rest m hm
  have hinv := restFold_inv ((m.roles.map (fun p => p.2.restRequests)).flatten) [] []
    restInvariant_nil
  rw [List.nil_append] at hinv
  obtain ⟨hiff, hsome⟩ := hinv url
  cases hl : lookupA (((m.roles.map (fun p => p.2.restRequests)).flatten).foldl restStep []) url with
  | none =>
      have h0 := hiff.mp hl
      omega
  | some e =>
      obtain ⟨hc, hge, hall⟩ := hsome e hl
      refine ⟨sec, e, hsec, ?_, ?_, ?_⟩
      · rw [hrest]
        exact hl
      · exact hc
      · exact hall (by omega)

/-- Witness for C9 at the concrete merged report `mmC4` (three erroring
requests for "/a"). -/
theorem rest_allStatusCodes_empty_witness :
    ∃ sec e, (extendJsonWithErrors mmC4).errors = some sec ∧
      lookupA sec.rest "/a" = some e ∧
      e.count = errCntRest "/a" ((mmC4.roles.map (fun p => p.2.restRequests)).flatten) ∧
      e.allStatusCodes = [] :=
  rest_allStatusCodes_empty_after_second_error mmC4 rfl "/a" (by decide)

/-! ## Claim C10: cross-role behaviour of `errors.gql` vs `errors.rest` -/

/-- The `gql` half of the classifier is the per-operation loop folded
over all roles' operation maps in order. -/
lemma rolesFold_gql (roles : List (String × RoleMetrics)) :
    ∀ sec : ErrorsSection,
      (roles.foldl (fun sec p => processRole sec p.2) sec).gql =
        roles.foldl (fun g p =>
          p.2.gqlOperations.foldl (fun g q => processGqlOperation g q.1 q.2.requests) g)
          sec.gql := by
  induction roles with
  | nil => intro sec; rfl
  | cons p roles ih =>
      intro sec
      rw [List.foldl_cons, List.foldl_cons, ih]
      rfl

/-- Processing operations whose names differ from `opName` leaves the
`opName` entry alone. -/
lemma opsFold_lookup_notmem (opName : String) :
    ∀ (ops : List (String × OperationBucket)) (g : List (String × GqlErrorSummary)),
      opName ∉ ops.map Prod.fst →
      lookupA (ops.foldl (fun g q => processGqlOperation g q.1 q.2.requests) g) opName =
        lookupA g opName := by
  intro ops
  induction ops with
  | nil => intro g _; rfl
  | cons q ops ih =>
      intro g hmem
      rw [List.map_cons] at hmem
      have hq : q.1 ≠ opName := fun habs => hmem (habs ▸ List.mem_cons_self _ _)
      have hrest : opName ∉ ops.map Prod.fst := fun h => hmem (List.mem_cons_of_mem _ h)
      rw [List.foldl_cons, ih _ hrest]
      exact gqlFold_lookup_ne q.1 opName hq q.2.requests q.2.requests g

/-- An erroring request guarantees the operation's summary exists. -/
lemma gqlSummaryOpt_isSome_of_trigger (reqs : List MergedRequest)
    (htrig : ∃ r ∈ reqs, gqlTrigger r = true) :
    ∃ s, gqlSummaryOpt reqs = some s := by
  obtain ⟨r, hr, htr⟩ := htrig
  have hpred : gqlErrorPred r = true := by
    have h := htr
    unfold gqlTrigger at h
    exact ((Bool.and_eq_true _ _).mp h).2
  have hmem : r.responseStatusCode ∈ errorCodesOf reqs := by
    unfold errorCodesOf
    exact List.mem_map_of_mem _ (List.mem_filter.mpr ⟨hr, hpred⟩)
  cases hc : errorCodesOf reqs with
  | nil => rw [hc] at hmem; cases hmem
  | cons c cs =>
      refine ⟨{ count := (c :: cs).length
                mostCommonStatusCode := mostCommonStatusCode (c :: cs)
                allStatusCodes :=
                  StatusCodesField.single (reduceByCount (c :: cs) c cs) }, ?_⟩
      unfold gqlSummaryOpt
      rw [hc]
      rfl

/-- Folding a role's operation map with unique operation names: the
entry for `opName` ends up holding the summary of that role's own
bucket for `opName`, regardless of what earlier roles left in `g`. -/
lemma opsFold_lookup_self (opName : String) (op2 : OperationBucket)
    (s : GqlErrorSummary) (hs : gqlSummaryOpt op2.requests = some s)
    (htrig : ∃ r ∈ op2.requests, gqlTrigger r = true) :
    ∀ (ops : List (String × OperationBucket)) (g : List (String × GqlErrorSummary)),
      (ops.map Prod.fst).Nodup → lookupA ops opName = some op2 →
      lookupA (ops.foldl (fun g q => processGqlOperation g q.1 q.2.requests) g) opName =
        some s := by
  intro ops
  induction ops with
  | nil => intro g _ hl; exact Option.noConfusion hl
  | cons q ops ih =>
      intro g hnd hl
      obtain ⟨k, b⟩ := q
      rw [List.map_cons] at hnd
      have hnd' := List.nodup_cons.mp hnd
      rw [lookupA_cons] at hl
      rw [List.foldl_cons]
      by_cases hk : k = opName
      · rw [if_pos hk] at hl
        obtain rfl := Option.some.inj hl
        subst hk
        rw [opsFold_lookup_notmem k ops _ hnd'.1]
        exact gqlFold_sets k b.requests s hs b.requests g htrig
      · rw [if_neg hk] at hl
        exact ih _ hnd'.2 hl

lemma errCntRest_append (url : String) (l1 l2 : List MergedRequest) :
    errCntRest url (l1 ++ l2) = errCntRest url l1 + errCntRest url l2 := by
  unfold errCntRest
  rw [List.filter_append, List.length_append]

/-- Claim C10: with two roles processed in order, a remote-call
operation name occurring (with an erroring request) in the second role
gets its `errors.gql` entry computed solely from the second role's
requests (overwriting whatever the first role produced), while an
`errors.rest` entry for a URL shared by both roles accumulates its
`count` across the roles. -/
theorem gql_overwritten_rest_accumulated_across_roles
    (n1 n2 opName url : String) (r1 r2 : RoleMetrics) (op2 : OperationBucket)
    (hnd : (r2.gqlOperations.map Prod.fst).Nodup)
    (hop : lookupA r2.gqlOperations opName = some op2)
    (htrig : ∃ r ∈ op2.requests, gqlTrigger r = true)
    (h1 : 1 ≤ errCntRest url r1.restRequests)
    (h2 : 1 ≤ errCntRest url r2.restRequests) :
    ∃ sec,
      (extendJsonWithErrors
        { roles := [(n1, r1), (n2, r2)], errors := none }).errors = some sec ∧
      lookupA sec.gql opName = gqlSummaryOpt op2.requests ∧
      ∃ e, lookupA sec.rest url = some e ∧
        e.count = errCntRest url r1.restRequests + errCntRest url r2.restRequests := by
  obtain ⟨s, hs⟩ := gqlSummaryOpt_isSome_of_trigger op2.requests htrig
  refine ⟨_, rfl, ?_, ?_⟩
  · rw [rolesFold_gql, List.foldl_cons, List.foldl_cons, List.foldl_nil, hs]
    exact opsFold_lookup_self opName op2 s hs htrig r2.gqlOperations _ hnd hop
  · rw [rolesFold_rest]
    show ∃ e,
      lookupA ((r1.restRequests ++ (r2.restRequests ++ [])).foldl restStep []) url =
          some e ∧
        e.count = errCntRest url r1.restRequests + errCntRest url r2.restRequests
    rw [List.append_nil]
    have hinv := restFold_inv (r1.restRequests ++ r2.restRequests) [] [] restInvariant_nil
    rw [List.nil_append] at hinv
    obtain ⟨hiff, hsome⟩ := hinv url
    have hcnt := errCntRest_append url r1.restRequests r2.restRequests
    cases hl : lookupA ((r1.restRequests ++ r2.restRequests).foldl restStep []) url with
    | none =>
        have h0 := hiff.mp hl
        rw [hcnt] at h0
        omega
    | some e =>
        obtain ⟨hc, _, _⟩ := hsome e hl
        exact ⟨e, rfl, by rw [hc, hcnt]⟩

/-- Concrete two-role report for the C10 witness: both roles contain
operation "Op" with erroring requests and both have an erroring
resource request for "/r". -/
def role10a : RoleMetrics :=
  { overallInformation := zeroOverall
    gqlOperations := [("Op", OperationBucket.mk [mkGqlReq 500 "boom"])]
    restRequests := [mkRestReq "/r" 500] }

def role10b : RoleMetrics :=
  { overallInformation := zeroOverall
    gqlOperations := [("Op", op7)]
    restRequests := [mkRestReq "/r" 404] }

/-- Witness for C10 at the concrete two-role report. -/
theorem gql_overwritten_rest_accumulated_witness :
    ∃ sec,
      (extendJsonWithErrors
        { roles := [("admin", role10a), ("user", role10b)], errors := none }).errors =
          some sec ∧
      lookupA sec.gql "Op" = gqlSummaryOpt op7.requests ∧
      ∃ e, lookupA sec.rest "/r" = some e ∧
        e.count = errCntRest "/r" role10a.restRequests + errCntRest "/r" role10b.restRequests :=
  gql_overwritten_rest_accumulated_across_roles "admin" "user" "Op" "/r"
    role10a role10b op7 (by decide) (by decide) (by decide) (by decide) (by decide)
